import Mathlib

/-!
Verification of the MDC dataset-analysis pipeline
(`dataset_analysis_multithreaded.py`).

The development shallowly embeds the pure core of `DatasetAnalyzer`:
the JSON-extraction and retry logic of `call_api_with_retry`, the
batching arithmetic and checkpoint loop of `analyze_dataset`, the
result loading of `load_existing_results`, the per-item bookkeeping of
`process_single_item`, and the aggregation of `generate_summary`.
Python strings are modelled as `List Char`, JSON values by the `Json`
inductive below, and `json.loads` by a recursive-descent parser
covering the JSON fragment the program exchanges (objects, arrays,
strings without escape processing beyond the common single-character
escapes, integer numerals, booleans, null).  Thread scheduling, real
time and the network are abstracted into oracles: the LLM client
becomes a function from attempt number to an outcome (a response text
or a raised exception message), and `time.sleep` is recorded in a
trace rather than performed.
-/

namespace MDC

/-- JSON values, as produced by `json.loads` / consumed by `json.dump`.
Numbers are modelled as integers: every numeric literal the pipeline
itself manufactures is an integer, and no claim exercises floats. -/
inductive Json where
  | null : Json
  | bool : Bool → Json
  | num : Int → Json
  | str : List Char → Json
  | arr : List Json → Json
  | obj : List (List Char × Json) → Json
deriving Repr

/-! ### Python string primitives

`List Char` models a Python `str`; these mirror the exact operations
used at lines 176-185 of the source: `in` (substring containment),
`str.find` (with and without a start offset), `str.rfind`, slicing
with a possibly negative end index, and `str.strip`. -/

/-- `sub` occurs at the very start of `s` (helper for substring search). -/
def headMatch : List Char → List Char → Bool
  | [], _ => true
  | _ :: _, [] => false
  | c :: cs, d :: ds => c = d && headMatch cs ds

/-- Lowest index `≥ 0` at which `sub` occurs in `s`, if any. -/
def findIdx : List Char → List Char → Option Nat
  | s, sub =>
    if headMatch sub s then some 0
    else match s with
      | [] => none
      | _ :: rest => (findIdx rest sub).map (· + 1)

/-- Python `sub in s`. -/
def pyContains (s sub : List Char) : Bool := (findIdx s sub).isSome

/-- Python `s.find(sub)`: lowest index of `sub` in `s`, or `-1`. -/
def pyFind (s sub : List Char) : Int :=
  match findIdx s sub with
  | some i => (i : Int)
  | none => -1

/-- Python `s.find(sub, start)`: search only from index `start` on,
returning an absolute index or `-1`.  (Used with `start ≥ 0` only.) -/
def pyFindFrom (s sub : List Char) (start : Int) : Int :=
  let start' : Nat := if start < 0 then 0 else start.toNat
  match findIdx (s.drop start') sub with
  | some i => (i + start' : Int)
  | none => -1

/-- Python `s.rfind(sub)`: highest index of `sub` in `s`, or `-1`. -/
def pyRfind (s sub : List Char) : Int :=
  match findIdx s.reverse sub.reverse with
  | some i => (s.length - sub.length - i : Int)
  | none => -1

/-- Clamp a Python slice bound to an absolute position in `[0, n]`. -/
def sliceBound (n : Nat) (i : Int) : Nat :=
  if i < 0 then (n + i).toNat else min i.toNat n

/-- Python `s[a:b]` (step 1), with negative indices counted from the
end and out-of-range bounds clamped. -/
def pySlice (s : List Char) (a b : Int) : List Char :=
  let lo := sliceBound s.length a
  let hi := sliceBound s.length b
  (s.take hi).drop lo

/-- Python `str.isspace` for the characters `strip()` removes. -/
def pyIsSpace (c : Char) : Bool :=
  c = ' ' || c = '\t' || c = '\n' || c = '\x0d' || c = '\x0b' || c = '\x0c'

/-- Python `s.strip()`. -/
def pyStrip (s : List Char) : List Char :=
  ((s.dropWhile pyIsSpace).reverse.dropWhile pyIsSpace).reverse

/-! ### JSON extraction (source lines 176-185) -/

/-- The opening fence marker tested by line 176. -/
def fenceTag : List Char := "```json".toList

/-- A bare fence, the closing marker searched at line 178. -/
def fenceBare : List Char := "```".toList

/-- One-character strings for the brace tests of lines 180-182. -/
def braceL : List Char := "\x7b".toList
def braceR : List Char := "\x7d".toList

/-- The candidate-substring selection of `call_api_with_retry`
(lines 176-185): a ```` ```json ```` fenced block if present, else the
span from the first `{` to the last `}` when both occur, else the
whole text. -/
def extractJson (content : List Char) : List Char :=
  if pyContains content fenceTag then
    let jsonStart := pyFind content fenceTag + 7
    let jsonEnd := pyFindFrom content fenceBare jsonStart
    pyStrip (pySlice content jsonStart jsonEnd)
  else if pyContains content braceL && pyContains content braceR then
    let jsonStart := pyFind content braceL
    let jsonEnd := pyRfind content braceR + 1
    pySlice content jsonStart jsonEnd
  else
    content

/-! ### `json.loads`, modelled

A recursive-descent parser for the JSON fragment the pipeline
exchanges.  Faithful to Python's `json.loads` on that fragment:
surrounding whitespace is allowed, the whole input must be consumed,
and a failure models the `json.JSONDecodeError` caught at line 191.
Floating-point numerals and `\uXXXX` escapes are outside the fragment
and are rejected. -/

/-- The whitespace characters `json.loads` skips between tokens. -/
def jsonSpace (c : Char) : Bool :=
  c = ' ' || c = '\t' || c = '\n' || c = '\x0d'

/-- Decode one string-escape character (after a backslash). -/
def unescape (c : Char) : Option Char :=
  if c = '"' then some '"'
  else if c = '\\' then some '\\'
  else if c = '/' then some '/'
  else if c = 'n' then some '\n'
  else if c = 't' then some '\t'
  else if c = 'r' then some '\x0d'
  else if c = 'b' then some '\x08'
  else if c = 'f' then some '\x0c'
  else none

/-- Parse the body of a JSON string (the opening quote already
consumed), returning the decoded characters and the rest of the
input. -/
def parseStringBody : List Char → Option (List Char × List Char)
  | [] => none
  | c :: cs =>
    if c = '"' then some ([], cs)
    else if c = '\\' then
      match cs with
      | [] => none
      | e :: cs' =>
        match unescape e with
        | some d => (parseStringBody cs').map (fun r => (d :: r.1, r.2))
        | none => none
    else (parseStringBody cs).map (fun r => (c :: r.1, r.2))

/-- Parse a maximal run of decimal digits into a natural number. -/
def parseDigits : List Char → Option (Nat × List Char)
  | s =>
    let digits := s.takeWhile Char.isDigit
    if digits = [] then none
    else some (digits.foldl (fun acc c => acc * 10 + (c.toNat - 48)) 0,
               s.dropWhile Char.isDigit)

/-- Parse a nonempty comma-separated run of array elements up to and
including the closing bracket, given a parser `pv` for one value. -/
def itemsLoop (pv : List Char → Option (Json × List Char)) :
    Nat → List Char → Option (List Json × List Char)
  | 0, _ => none
  | fuel + 1, s =>
    match pv s with
    | none => none
    | some (v, rest) =>
      match rest.dropWhile jsonSpace with
      | ']' :: rest' => some ([v], rest')
      | ',' :: rest' =>
        (itemsLoop pv fuel (rest'.dropWhile jsonSpace)).map
          (fun r => (v :: r.1, r.2))
      | _ => none

/-- Parse a nonempty comma-separated run of object members up to and
including the closing brace, given a parser `pv` for one value. -/
def membersLoop (pv : List Char → Option (Json × List Char)) :
    Nat → List Char → Option (List (List Char × Json) × List Char)
  | 0, _ => none
  | fuel + 1, s =>
    match s with
    | '"' :: cs =>
      match parseStringBody cs with
      | none => none
      | some (key, rest) =>
        match rest.dropWhile jsonSpace with
        | ':' :: rest' =>
          match pv (rest'.dropWhile jsonSpace) with
          | none => none
          | some (v, rest'') =>
            match rest''.dropWhile jsonSpace with
            | '}' :: rest3 => some ([(key, v)], rest3)
            | ',' :: rest3 =>
              (membersLoop pv fuel (rest3.dropWhile jsonSpace)).map
                (fun r => ((key, v) :: r.1, r.2))
            | _ => none
        | _ => none
    | _ => none

/-- Parse one JSON value; the fuel bounds the nesting depth, and each
level consumes at least one character, so `length + 1` suffices. -/
def parseVal : Nat → List Char → Option (Json × List Char)
  | 0, _ => none
  | _, [] => none
  | fuel + 1, s@(c :: cs) =>
    if headMatch ("null".toList) s then some (Json.null, s.drop 4)
    else if headMatch ("true".toList) s then some (Json.bool true, s.drop 4)
    else if headMatch ("false".toList) s then some (Json.bool false, s.drop 5)
    else if c = '"' then
      (parseStringBody cs).map (fun r => (Json.str r.1, r.2))
    else if c = '-' then
      (parseDigits cs).map (fun r => (Json.num (-(r.1 : Int)), r.2))
    else if c.isDigit then
      (parseDigits s).map (fun r => (Json.num (r.1 : Int), r.2))
    else if c = '[' then
      let rest := cs.dropWhile jsonSpace
      match rest with
      | ']' :: rest' => some (Json.arr [], rest')
      | _ =>
        (itemsLoop (parseVal fuel) (rest.length + 1) rest).map
          (fun r => (Json.arr r.1, r.2))
    else if c = '{' then
      let rest := cs.dropWhile jsonSpace
      match rest with
      | '}' :: rest' => some (Json.obj [], rest')
      | _ =>
        (membersLoop (parseVal fuel) (rest.length + 1) rest).map
          (fun r => (Json.obj r.1, r.2))
    else none

/-- `json.loads`: parse a complete JSON document, requiring the whole
input (up to surrounding whitespace) to be consumed. -/
def parseJson (s : List Char) : Option Json :=
  let body := s.dropWhile jsonSpace
  match parseVal (body.length + 1) body with
  | some (v, rest) => if rest.dropWhile jsonSpace = [] then some v else none
  | none => none

/-! ### `call_api_with_retry` (source lines 152-211)

The LLM client is abstracted into an oracle mapping the attempt number
to what `self.client.chat.completions.create` does on that attempt:
either raise an exception (any failure up to and including reading
`response.choices[0].message.content`) or deliver a response text.
`time.sleep(2 ** attempt)` is recorded in a trace instead of
performed, and the number of client invocations is counted. -/

/-- Outcome of one underlying client call. -/
inductive ApiOutcome where
  | raise : List Char → ApiOutcome
  | respond : List Char → ApiOutcome

/-- Dictionary keys and messages used by the retry loop. -/
def errorKey : List Char := "error".toList
def itemIdKey : List Char := "item_id".toList
def rawResponseKey : List Char := "raw_response".toList
def parseFailMsg : List Char := "JSON解析失败".toList

/-- The `{error: str(e), item_id}` dict returned at lines 206-209 when
the last attempt's client call raises. -/
def apiErrorDict (msg itemId : List Char) : Json :=
  Json.obj [(errorKey, Json.str msg), (itemIdKey, Json.str itemId)]

/-- The fallback dict returned at lines 195-199 when JSON parsing
fails on the last attempt. -/
def parseFailDict (content itemId : List Char) : Json :=
  Json.obj [(errorKey, Json.str parseFailMsg),
            (rawResponseKey, Json.str content),
            (itemIdKey, Json.str itemId)]

/-- Observable behaviour of one `call_api_with_retry` invocation: the
returned value (`none` models Python `None`), the arguments of the
`time.sleep` calls in order, and how many client calls were made. -/
structure CallTrace where
  result : Option Json
  sleeps : List Nat
  calls : Nat
deriving Repr

/-- The body of the `for attempt in range(self.max_retries)` loop,
from iteration `attempt` with `rem` iterations left
(`rem = maxRetries - attempt` at every call). -/
def callApiFrom (oracle : Nat → ApiOutcome) (itemId : List Char)
    (maxRetries : Nat) : Nat → Nat → CallTrace
  | _, 0 => ⟨none, [], 0⟩
  | attempt, rem + 1 =>
    match oracle attempt with
    | .respond content =>
      match parseJson (extractJson content) with
      | some result => ⟨some result, [], 1⟩
      | none =>
        if attempt = maxRetries - 1 then
          ⟨some (parseFailDict content itemId), [], 1⟩
        else
          let t := callApiFrom oracle itemId maxRetries (attempt + 1) rem
          ⟨t.result, t.sleeps, t.calls + 1⟩
    | .raise msg =>
      if attempt < maxRetries - 1 then
        let t := callApiFrom oracle itemId maxRetries (attempt + 1) rem
        ⟨t.result, 2 ^ attempt :: t.sleeps, t.calls + 1⟩
      else
        ⟨some (apiErrorDict msg itemId), [], 1⟩

/-- `call_api_with_retry(prompt, item_id)`: run the retry loop over
`range(max_retries)`; the trailing `return None` of line 211 is the
`none` produced when the loop runs out of iterations. -/
def callApiWithRetry (maxRetries : Nat) (oracle : Nat → ApiOutcome)
    (itemId : List Char) : CallTrace :=
  callApiFrom oracle itemId maxRetries 0 maxRetries

/-! ### `analyze_dataset` (source lines 318-401) and
`load_existing_results` (lines 300-316)

The dataframe is abstracted to its row count, and each batch's
`process_batch` outcome to an oracle `batchResults : Nat → List Json`
giving the successful results collected for that batch (thread
completion order folded in).  File writes are recorded in traces:
the per-batch results files and the successive contents of the
checkpoint file. -/

/-- `total_batches = (len(df) + batch_size - 1) // batch_size`
(source line 352). -/
def totalBatches (rowCount batchSize : Nat) : Nat :=
  (rowCount + batchSize - 1) / batchSize

/-- `start_idx = batch_num * batch_size` (source line 356). -/
def batchStart (batchNum batchSize : Nat) : Nat := batchNum * batchSize

/-- `end_idx = min((batch_num + 1) * batch_size, len(df))`
(source line 357). -/
def batchEnd (batchNum batchSize rowCount : Nat) : Nat :=
  min ((batchNum + 1) * batchSize) rowCount

/-- Row `n` lies in the slice `df.iloc[start_idx:end_idx]` of batch
`batchNum`. -/
def inBatch (batchNum batchSize rowCount n : Nat) : Prop :=
  batchStart batchNum batchSize ≤ n ∧ n < batchEnd batchNum batchSize rowCount

instance (b s r n : Nat) : Decidable (inBatch b s r n) := by
  unfold inBatch; infer_instance

/-- One record of the checkpoint file contents (source lines 370-375);
the wall-clock `timestamp` field is outside the model. -/
structure Checkpoint where
  last_completed_batch : Nat
  total_completed : Nat
deriving Repr, DecidableEq

/-- The `for batch_num in range(start_from_batch, total_batches)` loop
(lines 355-378), from batch `batchNum` with `rem` iterations left:
returns the accumulated `all_results`, the per-batch results files
written (lines 365-367 guard both the write and the extend by
`if batch_results:`), and the successive checkpoint-file contents
(written unconditionally each iteration, lines 369-378). -/
def batchLoop (batchResults : Nat → List Json) :
    List Json → Nat → Nat → List Json × List (Nat × List Json) × List Checkpoint
  | acc, _, 0 => (acc, [], [])
  | acc, batchNum, rem + 1 =>
    let br := batchResults batchNum
    let acc' := if br.isEmpty then acc else acc ++ br
    let fileWrites : List (Nat × List Json) :=
      if br.isEmpty then [] else [(batchNum, br)]
    let cp : Checkpoint := ⟨batchNum, acc'.length⟩
    let t := batchLoop batchResults acc' (batchNum + 1) rem
    (t.1, fileWrites ++ t.2.1, cp :: t.2.2)

/-- Whether the string `s` ends with `suffix` (Python
`filename.endswith(...)`, source line 307). -/
def endsWith (s suffix : List Char) : Bool :=
  headMatch suffix.reverse s.reverse

/-- The filename filter of `load_existing_results`. -/
def resultsFileTail : List Char := "_results.json".toList

/-- `load_existing_results`: concatenate the (already decoded) JSON
arrays of every file in the output directory whose name ends in
`_results.json`, in listing order.  The directory is modelled as an
association list of file name and decoded contents. -/
def loadExistingResults (fs : List (List Char × List Json)) : List Json :=
  List.flatten ((fs.filter (fun f => endsWith f.1 resultsFileTail)).map Prod.snd)

/-- The name of the per-batch results file (source line 292). -/
def batchFileName (batchId : Nat) : List Char :=
  "batch_".toList ++ (Nat.repr batchId).toList ++ resultsFileTail

/-- The fields of the returned `final_results` that the model tracks
(source lines 384-394). -/
structure FinalResults where
  detailed_results : List Json
  total_processed : Nat
deriving Repr

/-- Full observable outcome of one `analyze_dataset` run. -/
structure RunOutput where
  final : FinalResults
  batchFiles : List (Nat × List Json)
  checkpoints : List Checkpoint
  loggedExisting : Option Nat
deriving Repr

/-- `analyze_dataset(parquet_file, batch_size, start_from_batch)`
after a successful load and schema validation.  When
`start_from_batch > 0`, `existing_results = load_existing_results()`
is computed and its length logged (lines 347-349) — `loggedExisting`
records that log line; the accumulator then starts as
`all_results = []` (line 351), mirroring that `existing_results` is
not referenced afterwards in the source. -/
def analyzeDataset (fs : List (List Char × List Json))
    (batchResults : Nat → List Json)
    (rowCount batchSize startFromBatch : Nat) : RunOutput :=
  let loggedExisting : Option Nat :=
    if 0 < startFromBatch then some (loadExistingResults fs).length else none
  let tb := totalBatches rowCount batchSize
  let t := batchLoop batchResults [] startFromBatch (tb - startFromBatch)
  { final := ⟨t.1, t.1.length⟩
    batchFiles := t.2.1
    checkpoints := t.2.2
    loggedExisting := loggedExisting }

/-! ### Python truthiness and dict operations -/

/-- Python truthiness of a JSON value (`if result:`, `bool(x)`). -/
def jsonTruthy : Json → Bool
  | .null => false
  | .bool b => b
  | .num n => n != 0
  | .str s => !s.isEmpty
  | .arr xs => !xs.isEmpty
  | .obj kvs => !kvs.isEmpty

/-- Truthiness of an optional value, `none` modelling Python `None`. -/
def pyTruthy : Option Json → Bool
  | none => false
  | some j => jsonTruthy j

/-- A Python dict with string keys, in insertion order. -/
abbrev PyDict := List (List Char × Json)

/-- Dict lookup (`d[k]` / `k in d` / `d.get(k)`). -/
def dictGet (kvs : PyDict) (key : List Char) : Option Json :=
  (kvs.find? (fun kv => kv.1 == key)).map Prod.snd

/-- Dict assignment `d[k] = v`: overwrite in place if the key exists
(keeping its position), else append. -/
def dictSet (kvs : PyDict) (key : List Char) (v : Json) : PyDict :=
  match kvs with
  | [] => [(key, v)]
  | (k', w) :: rest =>
    if k' == key then (k', v) :: rest else (k', w) :: dictSet rest key v

/-! ### `generate_summary` (source lines 403-450)

The claims address the keyword-frequency table and the accuracy
analysis; the results fed in are the result dicts accumulated by the
run.  `supporting_keywords` values are modelled as arrays of strings —
the shape the prompt requests and the only shape the pipeline
produces; the summary's classification-distribution and
context-pattern fields are aggregated the same way and are not needed
by any claim. -/

def supportingKeywordsKey : List Char := "supporting_keywords".toList
def isCorrectKey : List Char := "is_correct_classification".toList

/-- `'error' in result`. -/
def hasError (r : PyDict) : Bool := (dictGet r errorKey).isSome

/-- `result.get('supporting_keywords', [])`, read as a list of
keyword strings (line 428). -/
def keywordsOf (r : PyDict) : List (List Char) :=
  match dictGet r supportingKeywordsKey with
  | some (Json.arr xs) =>
    xs.filterMap (fun j => match j with | Json.str s => some s | _ => none)
  | _ => []

/-- `keyword_frequency[keyword] = keyword_frequency.get(keyword, 0) + 1`
(line 430) on an insertion-ordered table: an existing key keeps its
position, a new key is appended. -/
def bumpKeyword (freq : List (List Char × Nat)) (k : List Char) :
    List (List Char × Nat) :=
  match freq with
  | [] => [(k, 1)]
  | (k', c) :: rest =>
    if k' == k then (k', c + 1) :: rest else (k', c) :: bumpKeyword rest k

/-- The `keyword_frequency` table after the result loop of lines
415-430: keywords of non-error results counted in encounter order. -/
def keywordFrequency (results : List PyDict) : List (List Char × Nat) :=
  results.foldl
    (fun freq r =>
      if hasError r then freq else (keywordsOf r).foldl bumpKeyword freq)
    []

/-- One step of a stable descending sort on counts: insert `p` after
every entry with a count `≥ p.2`, mirroring Python's stable
`sorted(..., key=lambda x: x[1], reverse=True)`. -/
def insertDesc (p : List Char × Nat) :
    List (List Char × Nat) → List (List Char × Nat)
  | [] => [p]
  | q :: qs => if p.2 ≤ q.2 then q :: insertDesc p qs else p :: q :: qs

/-- Stable sort by descending count (line 435's `sorted(...,
reverse=True)`): entries with equal counts keep first-encountered
order. -/
def sortDesc (l : List (List Char × Nat)) : List (List Char × Nat) :=
  l.foldl (fun acc p => insertDesc p acc) []

/-- `top_keywords`: the sorted frequency table truncated to 20
entries (lines 435-436). -/
def topKeywords (results : List PyDict) : List (List Char × Nat) :=
  (sortDesc (keywordFrequency results)).take 20

/-- `r.get('is_correct_classification', True)` as a truth value
(lines 442-447): a missing field counts as correct. -/
def countedCorrect (r : PyDict) : Bool :=
  jsonTruthy ((dictGet r isCorrectKey).getD (Json.bool true))

/-- The `accuracy_analysis` dict of lines 440-448. -/
structure AccuracyAnalysis where
  total_analyzed : Nat
  correct_classifications : Nat
  incorrect_classifications : Nat
deriving Repr, DecidableEq

/-- Lines 440-448: among all results, count the non-error ones and
split them by `countedCorrect`. -/
def accuracyAnalysis (results : List PyDict) : AccuracyAnalysis :=
  ⟨(results.filter (fun r => !hasError r)).length,
   (results.filter (fun r => !hasError r && countedCorrect r)).length,
   (results.filter (fun r => !hasError r && !countedCorrect r)).length⟩

/-- The summary fields the claims address. -/
structure Summary where
  top_keywords : List (List Char × Nat)
  accuracy_analysis : Option AccuracyAnalysis

/-- `generate_summary(results)`: `none` models the early
`{"error": "没有有效结果"}` return for an empty input (lines 407-408);
`accuracy_analysis` is present exactly when
`enable_mislabel_analysis` is set (line 439). -/
def generateSummary (enableMislabelAnalysis : Bool)
    (results : List PyDict) : Option Summary :=
  if results.isEmpty then none
  else some ⟨topKeywords results,
             if enableMislabelAnalysis then some (accuracyAnalysis results)
             else none⟩

/-! ### `process_single_item` (source lines 224-263)

State shared across workers (`completed_count`, `failed_items`) is
threaded explicitly; the per-item file write of
`save_intermediate_result` is recorded as a name/contents pair. -/

/-- `{'batch_id': ..., 'index': ..., 'error': ...}` appended to
`self.failed_items` (line 261). -/
structure FailureRecord where
  batch_id : Nat
  index : Nat
  error : List Char
deriving Repr, DecidableEq

/-- The shared mutable analyzer state touched by workers. -/
structure AnalyzerState where
  completed_count : Nat
  failed_items : List FailureRecord
deriving Repr, DecidableEq

/-- `f"{batch_id}_{index}"` (line 238). -/
def itemIdStr (batchId index : Nat) : List Char :=
  (Nat.repr batchId).toList ++ "_".toList ++ (Nat.repr index).toList

/-- `f"{self.temp_dir}/batch_{batch_id}_item_{item_index}.json"`
(line 217), relative to the output directory. -/
def itemFileName (batchId index : Nat) : List Char :=
  "batch_".toList ++ (Nat.repr batchId).toList ++ "_item_".toList ++
    (Nat.repr index).toList ++ ".json".toList

def originalDataKey : List Char := "original_data".toList

/-- The four fields of one dataset row used by the processor, with
its positional index. -/
structure Row where
  index : Nat
  target_dataset_id : List Char
  article_id : List Char
  aggregated_text : List Char
  typeLabel : List Char

/-- The `original_data` dict attached at lines 242-247. -/
def originalDataDict (row : Row) : Json :=
  Json.obj [("index".toList, Json.num row.index),
            ("target_dataset_id".toList, Json.str row.target_dataset_id),
            ("article_id".toList, Json.str row.article_id),
            ("type".toList, Json.str row.typeLabel)]

/-- `result['original_data'] = {...}` (line 242): succeeds only when
the result is a dict; on any other value Python raises a `TypeError`,
which the surrounding `except` turns into a `FailureRecord`. -/
def withOriginalData (j : Json) (row : Row) : Option Json :=
  match j with
  | Json.obj kvs => some (Json.obj (dictSet kvs originalDataKey
      (originalDataDict row)))
  | _ => none

/-- The `str(e)` of the `TypeError` raised by item assignment on a
non-dict; the exact Python wording is irrelevant to every claim. -/
def itemAssignErrorMsg : List Char :=
  "object does not support item assignment".toList

/-- `process_single_item(item, batch_id)`: call the API via the
oracle, and on a truthy result attach `original_data`, write the
per-item file, bump the completed counter and return the result;
on a falsy result fall through to `return None`; on an exception
append a `FailureRecord` and return `None`.  Returns the produced
result, the updated shared state, and the per-item file writes. -/
def processSingleItem (oracle : Nat → ApiOutcome) (maxRetries : Nat)
    (row : Row) (batchId : Nat) (st : AnalyzerState) :
    Option Json × AnalyzerState × List (List Char × Json) :=
  let call := callApiWithRetry maxRetries oracle (itemIdStr batchId row.index)
  if pyTruthy call.result then
    match call.result with
    | some j =>
      match withOriginalData j row with
      | some j' =>
        (some j',
         { st with completed_count := st.completed_count + 1 },
         [(itemFileName batchId row.index, j')])
      | none =>
        (none,
         { st with failed_items :=
             st.failed_items ++ [⟨batchId, row.index, itemAssignErrorMsg⟩] },
         [])
    | none => (none, st, [])
  else
    (none, st, [])

/-! ### Characterization helpers for the aggregation claims -/

/-- The spec's description of the keyword pool ("flatten all
`supporting_keywords` lists across non-error results"): the
concatenation, in result order, of the keyword lists of the results
without an `error` key.  Stated from the claim's wording, to be
compared with the table the code builds. -/
def specFlatKeywords (results : List PyDict) : List (List Char) :=
  ((results.filter (fun r => !hasError r)).map keywordsOf).flatten

/-- Total count recorded for key `k` in a frequency table. -/
def freqCount : List (List Char × Nat) → List Char → Nat
  | [], _ => 0
  | p :: rest, k => (if p.1 == k then p.2 else 0) + freqCount rest k

/-! ## Theorems -/

/-! ### Retry loop -/

lemma callApiFrom_always_raise (oracle : Nat → ApiOutcome)
    (msgs : Nat → List Char) (itemId : List Char) (r : Nat)
    (h : ∀ i, oracle i = .raise (msgs i)) :
    ∀ rem attempt, attempt + rem = r → 0 < rem →
      callApiFrom oracle itemId r attempt rem =
        ⟨some (apiErrorDict (msgs (r - 1)) itemId),
         (List.range' attempt (rem - 1)).map (2 ^ ·), rem⟩ := by
  intro rem
  induction rem with
  | zero => omega
  | succ k ih =>
    intro attempt hsum _
    show (match oracle attempt with
      | .respond content => _
      | .raise msg => _) = _
    rw [h attempt]
    by_cases hlt : attempt < r - 1
    · have hk : 0 < k := by omega
      simp only [if_pos hlt, ih (attempt + 1) (by omega) hk]
      have hr : List.range' attempt k =
          attempt :: List.range' (attempt + 1) (k - 1) := by
        have hk' : k = (k - 1) + 1 := by omega
        conv_lhs => rw [hk']
        simp [List.range']
      simp [hr]
    · have hk : k = 0 := by omega
      have ha : attempt = r - 1 := by omega
      simp [if_neg hlt, hk, ha]

/-- C3: a client that raises on every call is invoked exactly
`max_retries` times; the loop sleeps `2^attempt` after every failing
attempt except the last, and the call returns the (non-null) dict
`{error: message of the last exception, item_id}`. -/
theorem C3_always_raising_client (r : Nat) (oracle : Nat → ApiOutcome)
    (msgs : Nat → List Char) (itemId : List Char) (hr : 1 ≤ r)
    (h : ∀ i, oracle i = .raise (msgs i)) :
    callApiWithRetry r oracle itemId =
      ⟨some (apiErrorDict (msgs (r - 1)) itemId),
       (List.range (r - 1)).map (2 ^ ·), r⟩ := by
  rw [callApiWithRetry,
    callApiFrom_always_raise oracle msgs itemId r h r 0 (by omega) (by omega),
    List.range_eq_range']

theorem C3_always_raising_client_witness :
    callApiWithRetry 3 (fun _ => .raise ("boom".toList)) ("i".toList) =
      ⟨some (apiErrorDict ("boom".toList) ("i".toList)), [1, 2], 3⟩ :=
  (C3_always_raising_client 3 (fun _ => .raise ("boom".toList))
    (fun _ => "boom".toList) ("i".toList) (by decide) (fun _ => rfl)).trans rfl

lemma callApiFrom_always_parsefail (oracle : Nat → ApiOutcome)
    (contents : Nat → List Char) (itemId : List Char) (r : Nat)
    (h : ∀ i, oracle i = .respond (contents i))
    (hp : ∀ i, parseJson (extractJson (contents i)) = none) :
    ∀ rem attempt, attempt + rem = r → 0 < rem →
      callApiFrom oracle itemId r attempt rem =
        ⟨some (parseFailDict (contents (r - 1)) itemId), [], rem⟩ := by
  intro rem
  induction rem with
  | zero => omega
  | succ k ih =>
    intro attempt hsum _
    show (match oracle attempt with
      | .respond content => _
      | .raise msg => _) = _
    rw [h attempt]
    simp only [hp attempt]
    by_cases hlast : attempt = r - 1
    · have hk : k = 0 := by omega
      simp [hlast, hk]
    · have hk : 0 < k := by omega
      simp [if_neg hlast, ih (attempt + 1) (by omega) hk]

/-- C4: when the client succeeds on every attempt but the extracted
substring never parses as JSON, the final attempt returns the fallback
dict carrying the parse-failure error tag, that attempt's raw response
text, and the item id — not `None`. -/
theorem C4_parse_failure_fallback (r : Nat) (oracle : Nat → ApiOutcome)
    (contents : Nat → List Char) (itemId : List Char) (hr : 1 ≤ r)
    (h : ∀ i, oracle i = .respond (contents i))
    (hp : ∀ i, parseJson (extractJson (contents i)) = none) :
    callApiWithRetry r oracle itemId =
      ⟨some (parseFailDict (contents (r - 1)) itemId), [], r⟩ := by
  rw [callApiWithRetry,
    callApiFrom_always_parsefail oracle contents itemId r h hp r 0
      (by omega) (by omega)]

theorem C4_parse_failure_fallback_witness :
    callApiWithRetry 2 (fun _ => .respond ("no json here".toList))
        ("i".toList) =
      ⟨some (parseFailDict ("no json here".toList) ("i".toList)), [], 2⟩ :=
  C4_parse_failure_fallback 2 (fun _ => .respond ("no json here".toList))
    (fun _ => "no json here".toList) ("i".toList) (by decide)
    (fun _ => rfl) (fun _ => rfl)

lemma callApiFrom_result_ne_none (oracle : Nat → ApiOutcome)
    (itemId : List Char) (r : Nat) :
    ∀ rem attempt, attempt + rem = r → 0 < rem →
      (callApiFrom oracle itemId r attempt rem).result ≠ none := by
  intro rem
  induction rem with
  | zero => omega
  | succ k ih =>
    intro attempt hsum _
    cases horacle : oracle attempt with
    | respond content =>
      cases hparse : parseJson (extractJson content) with
      | some v => simp [callApiFrom, horacle, hparse]
      | none =>
        by_cases hlast : attempt = r - 1
        · subst hlast
          simp [callApiFrom, horacle, hparse]
        · have hk : 0 < k := by omega
          simpa [callApiFrom, horacle, hparse, hlast] using
            ih (attempt + 1) (by omega) hk
    | raise msg =>
      by_cases hlt : attempt < r - 1
      · have hk : 0 < k := by omega
        simpa [callApiFrom, horacle, hlt] using
          ih (attempt + 1) (by omega) hk
      · simp [callApiFrom, horacle, hlt]

/-- C6 counterexample: a single response with the brace-free text
`"null"` parses as the JSON literal `null`, so `call_api_with_retry`
executes `return result` with `result = None` — the call returns a
null, and not a mapping, even though `max_retries ≥ 1`. -/
theorem C6_null_json_returns_none :
    callApiWithRetry 1 (fun _ => .respond ("null".toList)) ("i".toList) =
        ⟨some Json.null, [], 1⟩ ∧
      (∀ kvs, Json.null ≠ Json.obj kvs) ∧
      pyTruthy (some Json.null) = false := by
  refine ⟨rfl, fun kvs h => Json.noConfusion h, rfl⟩

/-- C6 (amended): for `max_retries ≥ 1` and any client behaviour, the
retry loop always exits through one of its explicit `return`
statements — the defensive `return None` after the loop (line 211) is
unreachable.  (The value actually returned need not be a non-null
mapping: a response that parses to the JSON literal `null`, or to any
non-object document, is returned as is.) -/
theorem C6_no_fallthrough_null (r : Nat) (oracle : Nat → ApiOutcome)
    (itemId : List Char) (hr : 1 ≤ r) :
    (callApiWithRetry r oracle itemId).result ≠ none := by
  rw [callApiWithRetry]
  exact callApiFrom_result_ne_none oracle itemId r r 0 (by omega) (by omega)

theorem C6_no_fallthrough_null_witness :
    (callApiWithRetry 1 (fun _ => .respond ("null".toList))
      ("i".toList)).result ≠ none :=
  C6_no_fallthrough_null 1 (fun _ => .respond ("null".toList))
    ("i".toList) (by decide)

/-- C10: a falsy `call_api_with_retry` result — Python `None` or a
falsy mapping, in particular the empty dict `{}`, which is returned
immediately when a response parses to an empty JSON object — makes
`process_single_item` return `None` leaving no trace: no per-item
file write, no completed-count increment, no `FailureRecord`. -/
theorem C10_falsy_result_no_trace :
    (∀ (oracle : Nat → ApiOutcome) (maxRetries : Nat) (row : Row)
        (batchId : Nat) (st : AnalyzerState),
      pyTruthy (callApiWithRetry maxRetries oracle
          (itemIdStr batchId row.index)).result = false →
      processSingleItem oracle maxRetries row batchId st = (none, st, [])) ∧
    (∀ (maxRetries : Nat) (oracle : Nat → ApiOutcome) (itemId c : List Char),
      1 ≤ maxRetries → oracle 0 = .respond c →
      parseJson (extractJson c) = some (Json.obj []) →
      callApiWithRetry maxRetries oracle itemId =
        ⟨some (Json.obj []), [], 1⟩) ∧
    parseJson (extractJson ("\x7b\x7d".toList)) = some (Json.obj []) ∧
    jsonTruthy (Json.obj []) = false := by
  refine ⟨?_, ?_, rfl, rfl⟩
  · intro oracle maxRetries row batchId st h
    rw [processSingleItem, h]
    simp
  · intro maxRetries oracle itemId c hr h0 hparse
    match maxRetries, hr with
    | m + 1, _ =>
      rw [callApiWithRetry]
      show (match oracle 0 with
        | .respond content => _
        | .raise msg => _) = _
      rw [h0]
      simp [hparse]

theorem C10_falsy_result_no_trace_witness :
    processSingleItem (fun _ => .respond ("\x7b\x7d".toList)) 5
        ⟨7, [], [], [], []⟩ 0 ⟨3, []⟩ = (none, ⟨3, []⟩, []) ∧
      callApiWithRetry 5 (fun _ => .respond ("\x7b\x7d".toList))
        (itemIdStr 0 7) = ⟨some (Json.obj []), [], 1⟩ :=
  ⟨C10_falsy_result_no_trace.1 (fun _ => .respond ("\x7b\x7d".toList)) 5
      ⟨7, [], [], [], []⟩ 0 ⟨3, []⟩ rfl,
   C10_falsy_result_no_trace.2.1 5 (fun _ => .respond ("\x7b\x7d".toList))
      (itemIdStr 0 7) ("\x7b\x7d".toList) (by decide) rfl rfl⟩

/-! ### Batching arithmetic and the checkpoint loop -/

/-- C5: `total_batches` is the ceiling of `row_count / batch_size`,
and for batch size ≥ 1 the batch slices
`[batch_id*B, min((batch_id+1)*B, R))` for `batch_id < total_batches`
partition `[0, R)`: every row index below `R` lies in exactly one
slice, and every slice stays below `R`. -/
theorem C5_batch_partition (rowCount batchSize : Nat)
    (hB : 1 ≤ batchSize) :
    totalBatches rowCount batchSize = rowCount ⌈/⌉ batchSize ∧
    (∀ n, n < rowCount →
      ∃! b, b < totalBatches rowCount batchSize ∧
        inBatch b batchSize rowCount n) ∧
    (∀ b, b < totalBatches rowCount batchSize →
      ∀ n, inBatch b batchSize rowCount n → n < rowCount) := by
  refine ⟨(Nat.ceilDiv_eq_add_pred_div rowCount batchSize).symm, ?_, ?_⟩
  · intro n hn
    refine ⟨n / batchSize, ⟨?_, ?_, ?_⟩, ?_⟩
    · show n / batchSize < (rowCount + batchSize - 1) / batchSize
      have h1 : n / batchSize ≤ (rowCount - 1) / batchSize :=
        Nat.div_le_div_right (by omega)
      have h2 : (rowCount - 1 + batchSize) / batchSize =
          (rowCount - 1) / batchSize + 1 := Nat.add_div_right _ (by omega)
      rw [show rowCount + batchSize - 1 = rowCount - 1 + batchSize by omega]
      omega
    · exact Nat.div_mul_le_self n batchSize
    · show n < min ((n / batchSize + 1) * batchSize) rowCount
      have h1 := Nat.div_add_mod n batchSize
      have h2 := Nat.mod_lt n (show batchSize > 0 by omega)
      have : n < (n / batchSize + 1) * batchSize := by
        have hexp : (n / batchSize + 1) * batchSize =
            batchSize * (n / batchSize) + batchSize := by ring
        omega
      omega
    · rintro b ⟨-, hlo, hhi⟩
      have hlo' : b * batchSize ≤ n := hlo
      have hhi' : n < (b + 1) * batchSize := by
        have := min_le_left ((b + 1) * batchSize) rowCount
        exact lt_of_lt_of_le hhi (le_refl _) |>.trans_le
          (min_le_left _ _)
      exact (Nat.div_eq_of_lt_le hlo' hhi').symm
  · rintro b - n ⟨-, hhi⟩
    exact lt_of_lt_of_le hhi (min_le_right _ _)

theorem C5_batch_partition_witness :
    totalBatches 5 2 = 5 ⌈/⌉ 2 ∧
    (∀ n, n < 5 → ∃! b, b < totalBatches 5 2 ∧ inBatch b 2 5 n) ∧
    (∀ b, b < totalBatches 5 2 → ∀ n, inBatch b 2 5 n → n < 5) :=
  C5_batch_partition 5 2 (by decide)

lemma batchLoop_checkpoint_batches (batchResults : Nat → List Json) :
    ∀ rem acc batchNum,
      ((batchLoop batchResults acc batchNum rem).2.2).map
          Checkpoint.last_completed_batch = List.range' batchNum rem := by
  intro rem
  induction rem with
  | zero => intro acc batchNum; simp [batchLoop]
  | succ k ih =>
    intro acc batchNum
    simp [batchLoop, ih, List.range']

/-- C7: within one `analyze_dataset` run, the `last_completed_batch`
values written to the checkpoint file are exactly the processed batch
numbers in order — strictly increasing across successive writes — and
one checkpoint is written per batch iteration, with no hypothesis on
the batch results (a batch with zero successful results still gets
its checkpoint). -/
theorem C7_checkpoint_monotone (fs : List (List Char × List Json))
    (batchResults : Nat → List Json)
    (rowCount batchSize startFromBatch : Nat) :
    ((analyzeDataset fs batchResults rowCount batchSize
        startFromBatch).checkpoints).map Checkpoint.last_completed_batch =
      List.range' startFromBatch
        (totalBatches rowCount batchSize - startFromBatch) ∧
    List.Pairwise (· < ·)
      (((analyzeDataset fs batchResults rowCount batchSize
        startFromBatch).checkpoints).map Checkpoint.last_completed_batch) ∧
    List.Chain' (· < ·)
      (((analyzeDataset fs batchResults rowCount batchSize
        startFromBatch).checkpoints).map Checkpoint.last_completed_batch) ∧
    (analyzeDataset fs batchResults rowCount batchSize
        startFromBatch).checkpoints.length =
      totalBatches rowCount batchSize - startFromBatch := by
  have hmap : ((analyzeDataset fs batchResults rowCount batchSize
      startFromBatch).checkpoints).map Checkpoint.last_completed_batch =
      List.range' startFromBatch
        (totalBatches rowCount batchSize - startFromBatch) := by
    simp [analyzeDataset, batchLoop_checkpoint_batches]
  have hpw : List.Pairwise (· < ·)
      (((analyzeDataset fs batchResults rowCount batchSize
        startFromBatch).checkpoints).map Checkpoint.last_completed_batch) := by
    rw [hmap]; exact List.pairwise_lt_range' _ _
  refine ⟨hmap, hpw, hpw.chain', ?_⟩
  have := congrArg List.length hmap
  simpa using this

/-- C1: the resume path loses earlier batches.  On a 2-row dataset
with batch size 1, a full run returns both results
(`total_processed = 2`); a run resumed from batch 1, with batch 0's
results file present on disk, loads that file (its length is logged)
but returns only batch 1's results: `detailed_results = [r1]` and
`total_processed = 1`, because `existing_results` is never merged
into the accumulator at lines 346-351. -/
theorem C1_resume_loses_earlier_batches :
    (analyzeDataset [] (fun b => [Json.num b]) 2 1 0).final =
        ⟨[Json.num 0, Json.num 1], 2⟩ ∧
    loadExistingResults [(batchFileName 0, [Json.num 0])] = [Json.num 0] ∧
    (analyzeDataset [(batchFileName 0, [Json.num 0])]
        (fun b => [Json.num b]) 2 1 1).loggedExisting = some 1 ∧
    (analyzeDataset [(batchFileName 0, [Json.num 0])]
        (fun b => [Json.num b]) 2 1 1).final = ⟨[Json.num 1], 1⟩ ∧
    (analyzeDataset [(batchFileName 0, [Json.num 0])]
          (fun b => [Json.num b]) 2 1 1).final.total_processed ≠
      (analyzeDataset [] (fun b => [Json.num b]) 2 1 0).final.total_processed
    := by
  refine ⟨rfl, rfl, rfl, rfl, by decide⟩

/-! ### Keyword aggregation -/

lemma freqCount_bumpKeyword (freq : List (List Char × Nat))
    (k k' : List Char) :
    freqCount (bumpKeyword freq k) k' =
      freqCount freq k' + (if k == k' then 1 else 0) := by
  induction freq with
  | nil => simp [bumpKeyword, freqCount]
  | cons p rest ih =>
    obtain ⟨a, c⟩ := p
    by_cases h : a == k
    · have ha : a = k := by simpa using h
      subst ha
      by_cases h' : a == k' <;> (simp [bumpKeyword, freqCount, h, h']; try omega)
    · simp only [bumpKeyword, if_neg h, freqCount, ih]
      omega

lemma freqCount_foldl_bump (ks : List (List Char)) :
    ∀ (freq : List (List Char × Nat)) (k : List Char),
      freqCount (ks.foldl bumpKeyword freq) k =
        freqCount freq k + ks.count k := by
  induction ks with
  | nil => simp
  | cons a t ih =>
    intro freq k
    rw [List.foldl_cons, ih, freqCount_bumpKeyword, List.count_cons]
    omega

lemma freqCount_keywordFrequency_aux (results : List PyDict) :
    ∀ (freq : List (List Char × Nat)) (k : List Char),
      freqCount (results.foldl
          (fun freq r =>
            if hasError r then freq
            else (keywordsOf r).foldl bumpKeyword freq) freq) k =
        freqCount freq k + (specFlatKeywords results).count k := by
  induction results with
  | nil => simp [specFlatKeywords]
  | cons r t ih =>
    intro freq k
    by_cases he : hasError r
    · simp [he, ih, specFlatKeywords]
    · simp only [List.foldl_cons, if_neg he, ih, freqCount_foldl_bump]
      simp [specFlatKeywords, he, List.count_append]
      omega

lemma insertDesc_perm (p : List Char × Nat) :
    ∀ l, (insertDesc p l).Perm (p :: l) := by
  intro l
  induction l with
  | nil => rfl
  | cons q t ih =>
    by_cases h : p.2 ≤ q.2
    · rw [show insertDesc p (q :: t) = q :: insertDesc p t by
        simp [insertDesc, h]]
      exact (ih.cons q).trans (List.Perm.swap p q t)
    · rw [show insertDesc p (q :: t) = p :: q :: t by simp [insertDesc, h]]

lemma sortDesc_foldl_perm (l : List (List Char × Nat)) :
    ∀ acc, (l.foldl (fun acc p => insertDesc p acc) acc).Perm (acc ++ l) := by
  induction l with
  | nil => simp
  | cons p t ih =>
    intro acc
    rw [List.foldl_cons]
    exact (ih _).trans
      (((insertDesc_perm p acc).append_right t).trans List.perm_middle.symm)

lemma sortDesc_perm (l : List (List Char × Nat)) :
    (sortDesc l).Perm l := by
  simpa using sortDesc_foldl_perm l []

lemma insertDesc_sorted (p : List Char × Nat) :
    ∀ l, List.Pairwise (fun x y : List Char × Nat => y.2 ≤ x.2) l →
      List.Pairwise (fun x y : List Char × Nat => y.2 ≤ x.2)
        (insertDesc p l) := by
  intro l
  induction l with
  | nil => intro _; simp [insertDesc]
  | cons q t ih =>
    intro h
    rw [List.pairwise_cons] at h
    obtain ⟨hq, ht⟩ := h
    by_cases hpq : p.2 ≤ q.2
    · have : insertDesc p (q :: t) = q :: insertDesc p t := by
        simp [insertDesc, hpq]
      rw [this, List.pairwise_cons]
      refine ⟨?_, ih ht⟩
      intro x hx
      rcases List.mem_cons.mp (((insertDesc_perm p t).mem_iff).mp hx) with
        hx | hx
      · simpa [hx] using hpq
      · exact hq x hx
    · have : insertDesc p (q :: t) = p :: q :: t := by
        simp [insertDesc, hpq]
      rw [this, List.pairwise_cons]
      refine ⟨?_, List.pairwise_cons.mpr ⟨hq, ht⟩⟩
      intro x hx
      rcases List.mem_cons.mp hx with hx | hx
      · subst hx; omega
      · exact le_trans (hq x hx) (by omega)

lemma sortDesc_foldl_sorted (l : List (List Char × Nat)) :
    ∀ acc, List.Pairwise (fun x y : List Char × Nat => y.2 ≤ x.2) acc →
      List.Pairwise (fun x y : List Char × Nat => y.2 ≤ x.2)
        (l.foldl (fun acc p => insertDesc p acc) acc) := by
  induction l with
  | nil => intro acc h; exact h
  | cons p t ih => intro acc h; exact ih _ (insertDesc_sorted p acc h)

lemma sortDesc_sorted (l : List (List Char × Nat)) :
    List.Pairwise (fun x y : List Char × Nat => y.2 ≤ x.2) (sortDesc l) :=
  sortDesc_foldl_sorted l [] (by simp)

lemma filter_insertDesc (c : Nat) (p : List Char × Nat) :
    ∀ l, List.Pairwise (fun x y : List Char × Nat => y.2 ≤ x.2) l →
      (insertDesc p l).filter (fun q => q.2 == c) =
        if p.2 = c then l.filter (fun q => q.2 == c) ++ [p]
        else l.filter (fun q => q.2 == c) := by
  intro l
  induction l with
  | nil =>
    intro _
    by_cases h : p.2 = c <;> simp [insertDesc, List.filter_cons, h]
  | cons q t ih =>
    intro hsort
    rw [List.pairwise_cons] at hsort
    obtain ⟨hq, ht⟩ := hsort
    by_cases hpq : p.2 ≤ q.2
    · have hstep : insertDesc p (q :: t) = q :: insertDesc p t := by
        simp [insertDesc, hpq]
      rw [hstep]
      by_cases hqc : q.2 = c <;>
        by_cases hpc : p.2 = c <;>
          simp [List.filter_cons, hqc, hpc, ih ht]
    · have hstep : insertDesc p (q :: t) = p :: q :: t := by
        simp [insertDesc, hpq]
      rw [hstep]
      by_cases hpc : p.2 = c
      · have hnil : (q :: t).filter (fun q => q.2 == c) = [] := by
          rw [List.filter_eq_nil_iff]
          intro x hx
          rcases List.mem_cons.mp hx with hx | hx
          · subst hx; simp; omega
          · have := hq x hx; simp; omega
        simp [List.filter_cons, hpc, hnil]
      · simp [List.filter_cons, hpc]

lemma filter_sortDesc_foldl (c : Nat) (l : List (List Char × Nat)) :
    ∀ acc, List.Pairwise (fun x y : List Char × Nat => y.2 ≤ x.2) acc →
      (l.foldl (fun acc p => insertDesc p acc) acc).filter
          (fun q => q.2 == c) =
        acc.filter (fun q => q.2 == c) ++ l.filter (fun q => q.2 == c) := by
  induction l with
  | nil => intro acc _; simp
  | cons p t ih =>
    intro acc hacc
    rw [List.foldl_cons, ih _ (insertDesc_sorted p acc hacc),
      filter_insertDesc c p acc hacc]
    by_cases hpc : p.2 = c <;> simp [List.filter_cons, hpc]

lemma filter_sortDesc (c : Nat) (l : List (List Char × Nat)) :
    (sortDesc l).filter (fun q => q.2 == c) =
      l.filter (fun q => q.2 == c) := by
  simpa using filter_sortDesc_foldl c l [] (by simp)

/-- C8: the `top_keywords` table.  On the example with keyword lists
`[["x","y"], ["x"]]` it is `x: 2, y: 1` with `x` ranked first, and on
`[["x","y"]]` the tie is broken by first-encountered order.  In
general the frequency table records, for every keyword, exactly its
number of occurrences in the flattened keyword pool of the non-error
results; the sorted table is a permutation of it, ordered by
descending count, with entries of any equal count kept in
first-encountered order (their filtered subsequence is unchanged);
`top_keywords` is its 20-entry truncation. -/
theorem C8_keyword_frequency :
    topKeywords
        [[(supportingKeywordsKey,
            Json.arr [Json.str ("x".toList), Json.str ("y".toList)])],
         [(supportingKeywordsKey, Json.arr [Json.str ("x".toList)])]] =
      [(("x".toList : List Char), 2), ("y".toList, 1)] ∧
    topKeywords
        [[(supportingKeywordsKey,
            Json.arr [Json.str ("x".toList), Json.str ("y".toList)])]] =
      [(("x".toList : List Char), 1), ("y".toList, 1)] ∧
    (∀ (results : List PyDict) (k : List Char),
      freqCount (keywordFrequency results) k =
        (specFlatKeywords results).count k) ∧
    (∀ results : List PyDict,
      (sortDesc (keywordFrequency results)).Perm
        (keywordFrequency results)) ∧
    (∀ results : List PyDict,
      List.Pairwise (fun x y : List Char × Nat => y.2 ≤ x.2)
        (sortDesc (keywordFrequency results))) ∧
    (∀ (results : List PyDict) (c : Nat),
      (sortDesc (keywordFrequency results)).filter (fun q => q.2 == c) =
        (keywordFrequency results).filter (fun q => q.2 == c)) ∧
    (∀ results : List PyDict,
      topKeywords results = (sortDesc (keywordFrequency results)).take 20 ∧
      (topKeywords results).length ≤ 20) := by
  refine ⟨rfl, rfl, ?_, ?_, ?_, ?_, ?_⟩
  · intro results k
    simpa [keywordFrequency, freqCount] using
      freqCount_keywordFrequency_aux results [] k
  · intro results
    exact sortDesc_perm _
  · intro results
    exact sortDesc_sorted _
  · intro results c
    exact filter_sortDesc c _
  · intro results
    exact ⟨rfl, List.length_take_le _ _⟩

theorem C8_keyword_frequency_witness :
    freqCount
        (keywordFrequency
          [[(supportingKeywordsKey,
              Json.arr [Json.str ("x".toList), Json.str ("y".toList)])],
           [(supportingKeywordsKey, Json.arr [Json.str ("x".toList)])]])
        ("x".toList) =
      (specFlatKeywords
          [[(supportingKeywordsKey,
              Json.arr [Json.str ("x".toList), Json.str ("y".toList)])],
           [(supportingKeywordsKey, Json.arr [Json.str ("x".toList)])]]).count
        ("x".toList) ∧
    (sortDesc (keywordFrequency
        [[(supportingKeywordsKey,
            Json.arr [Json.str ("x".toList), Json.str ("y".toList)])]])).filter
        (fun q => q.2 == 1) =
      (keywordFrequency
        [[(supportingKeywordsKey,
            Json.arr [Json.str ("x".toList), Json.str ("y".toList)])]]).filter
        (fun q => q.2 == 1) :=
  ⟨C8_keyword_frequency.2.2.1 _ ("x".toList),
   C8_keyword_frequency.2.2.2.2.2.1 _ 1⟩

/-! ### Accuracy analysis -/

lemma length_filter_correct_split (l : List PyDict) :
    (l.filter (fun r => !hasError r && countedCorrect r)).length +
      (l.filter (fun r => !hasError r && !countedCorrect r)).length =
    (l.filter (fun r => !hasError r)).length := by
  induction l with
  | nil => rfl
  | cons r t ih =>
    by_cases he : hasError r <;> by_cases hc : countedCorrect r <;>
      (simp [List.filter_cons, he, hc]; omega)

/-- C9: with mislabel analysis enabled and a non-empty result list,
`generate_summary` contains the accuracy analysis; its counts split
the non-error results into those whose
`is_correct_classification` field is counted correct versus not, a
missing field counting as correct, so
`correct + incorrect = total_analyzed = ` the number of non-error
results. -/
theorem C9_accuracy_counts :
    (∀ results : List PyDict, results ≠ [] →
      generateSummary true results =
        some ⟨topKeywords results, some (accuracyAnalysis results)⟩) ∧
    (∀ results : List PyDict,
      (accuracyAnalysis results).correct_classifications +
          (accuracyAnalysis results).incorrect_classifications =
        (accuracyAnalysis results).total_analyzed ∧
      (accuracyAnalysis results).total_analyzed =
        (results.filter (fun r => !hasError r)).length) ∧
    (∀ r : PyDict, dictGet r isCorrectKey = none → countedCorrect r = true)
    := by
  refine ⟨?_, ?_, ?_⟩
  · intro results h
    match results, h with
    | r :: t, _ => rfl
  · intro results
    exact ⟨length_filter_correct_split results, rfl⟩
  · intro r h
    simp [countedCorrect, h, jsonTruthy]

theorem C9_accuracy_counts_witness :
    generateSummary true [([] : PyDict)] =
        some ⟨[], some ⟨1, 1, 0⟩⟩ ∧
      countedCorrect ([] : PyDict) = true :=
  ⟨(C9_accuracy_counts.1 [([] : PyDict)] (List.cons_ne_nil _ _)).trans rfl,
   C9_accuracy_counts.2.2 [] rfl⟩

/-! ### Substring search: `find` / `rfind` characterizations -/

lemma headMatch_iff (sub : List Char) :
    ∀ s, headMatch sub s = true ↔ ∃ t, s = sub ++ t := by
  induction sub with
  | nil => intro s; simp [headMatch]
  | cons c cs ih =>
    intro s
    cases s with
    | nil => simp [headMatch]
    | cons d ds =>
      show (decide (c = d) && headMatch cs ds) = true ↔ _
      rw [Bool.and_eq_true, decide_eq_true_iff, ih]
      constructor
      · rintro ⟨rfl, t, rfl⟩
        exact ⟨t, rfl⟩
      · rintro ⟨t, h⟩
        injection h with h1 h2
        exact ⟨h1.symm, t, h2⟩

lemma findIdx_some_spec (sub : List Char) :
    ∀ (s : List Char) (i : Nat), findIdx s sub = some i →
      headMatch sub (s.drop i) = true ∧
        ∀ k, k < i → headMatch sub (s.drop k) = false := by
  intro s
  induction s with
  | nil =>
    intro i h
    by_cases hm : headMatch sub []
    · rw [findIdx, if_pos hm] at h
      obtain rfl : i = 0 := by simpa using h.symm
      exact ⟨by simpa using hm, by omega⟩
    · rw [findIdx, if_neg hm] at h
      exact absurd h (by simp)
  | cons c rest ih =>
    intro i h
    by_cases hm : headMatch sub (c :: rest)
    · rw [findIdx, if_pos hm] at h
      obtain rfl : i = 0 := by simpa using h.symm
      exact ⟨by simpa using hm, by omega⟩
    · rw [findIdx, if_neg hm] at h
      cases hr : findIdx rest sub with
      | none => rw [hr] at h; exact absurd h (by simp)
      | some j =>
        rw [hr] at h
        obtain rfl : i = j + 1 := by simpa using h.symm
        obtain ⟨hocc, hmin⟩ := ih j hr
        refine ⟨by simpa using hocc, ?_⟩
        intro k hk
        cases k with
        | zero => simpa using hm
        | succ k' => simpa using hmin k' (by omega)

lemma findIdx_none_spec (sub : List Char) :
    ∀ s : List Char, findIdx s sub = none →
      ∀ k, headMatch sub (s.drop k) = false := by
  intro s
  induction s with
  | nil =>
    intro h k
    by_cases hm : headMatch sub []
    · rw [findIdx, if_pos hm] at h; exact absurd h (by simp)
    · simpa using hm
  | cons c rest ih =>
    intro h k
    by_cases hm : headMatch sub (c :: rest)
    · rw [findIdx, if_pos hm] at h; exact absurd h (by simp)
    · rw [findIdx, if_neg hm] at h
      cases hr : findIdx rest sub with
      | none =>
        cases k with
        | zero => simpa using hm
        | succ k' => simpa using ih hr k'
      | some j => rw [hr] at h; exact absurd h (by simp)

lemma findIdx_of_min (sub : List Char) :
    ∀ (s : List Char) (i : Nat), headMatch sub (s.drop i) = true →
      (∀ k, k < i → headMatch sub (s.drop k) = false) →
      findIdx s sub = some i := by
  intro s
  induction s with
  | nil =>
    intro i hocc hmin
    obtain rfl : i = 0 := by
      by_contra hne
      have := hmin 0 (by omega)
      simp only [List.drop_nil] at hocc this
      exact absurd hocc (by simp [this])
    rw [findIdx, if_pos (by simpa using hocc)]
  | cons c rest ih =>
    intro i hocc hmin
    cases i with
    | zero =>
      rw [findIdx, if_pos (by simpa using hocc)]
    | succ j =>
      have hm : headMatch sub (c :: rest) = false := by
        simpa using hmin 0 (by omega)
      rw [findIdx, if_neg (by simp [hm]),
        ih j (by simpa using hocc)
          (fun k hk => by simpa using hmin (k + 1) (by omega))]
      rfl

lemma headMatch_single_iff (c : Char) (s : List Char) (k : Nat) :
    headMatch [c] (s.drop k) = true ↔ s[k]? = some c := by
  rw [show ([c] : List Char) = [c] ++ [] by simp] at *
  rw [headMatch_iff]
  constructor
  · rintro ⟨t, ht⟩
    have hh : (s.drop k).head? = some c := by rw [ht]; rfl
    rwa [List.head?_drop] at hh
  · intro h
    rw [← List.head?_drop] at h
    cases hd : s.drop k with
    | nil => rw [hd] at h; exact absurd h (by simp)
    | cons a t =>
      rw [hd] at h
      simp only [List.head?_cons, Option.some.injEq] at h
      exact ⟨t, by simp [h]⟩

/-! ### Extraction-order lemmas -/

lemma extractJson_fenced (pre mid post : List Char)
    (h1 : ∀ k, k < pre.length →
      headMatch fenceTag
        ((pre ++ fenceTag ++ mid ++ fenceBare ++ post).drop k) = false)
    (h2 : ∀ k, k < mid.length →
      headMatch fenceBare ((mid ++ fenceBare ++ post).drop k) = false) :
    extractJson (pre ++ fenceTag ++ mid ++ fenceBare ++ post) =
      pyStrip mid := by
  have h7 : fenceTag.length = 7 := rfl
  have h3 : fenceBare.length = 3 := rfl
  have hdrop1 : (pre ++ fenceTag ++ mid ++ fenceBare ++ post).drop
      pre.length = fenceTag ++ (mid ++ (fenceBare ++ post)) := by
    simp [List.drop_left pre (fenceTag ++ (mid ++ (fenceBare ++ post)))]
  have hidx1 : findIdx (pre ++ fenceTag ++ mid ++ fenceBare ++ post)
      fenceTag = some pre.length := by
    refine findIdx_of_min fenceTag _ pre.length ?_ h1
    rw [hdrop1]
    exact (headMatch_iff fenceTag _).mpr ⟨_, rfl⟩
  have hcont : pyContains (pre ++ fenceTag ++ mid ++ fenceBare ++ post)
      fenceTag = true := by
    rw [pyContains, hidx1]; rfl
  have hfind : pyFind (pre ++ fenceTag ++ mid ++ fenceBare ++ post)
      fenceTag = (pre.length : Int) := by
    rw [pyFind, hidx1]
  have hdrop2 : (pre ++ fenceTag ++ mid ++ fenceBare ++ post).drop
      (pre.length + 7) = mid ++ (fenceBare ++ post) := by
    have hsplit : pre ++ fenceTag ++ mid ++ fenceBare ++ post =
        (pre ++ fenceTag) ++ (mid ++ (fenceBare ++ post)) := by
      simp [List.append_assoc]
    rw [hsplit, List.drop_left' (by simp [h7])]
  have hidx2 : findIdx (mid ++ (fenceBare ++ post)) fenceBare =
      some mid.length := by
    refine findIdx_of_min fenceBare _ mid.length ?_ ?_
    · rw [List.drop_left mid (fenceBare ++ post)]
      exact (headMatch_iff fenceBare _).mpr ⟨_, rfl⟩
    · intro k hk
      simpa [List.append_assoc] using h2 k hk
  have hfrom : pyFindFrom (pre ++ fenceTag ++ mid ++ fenceBare ++ post)
      fenceBare ((pre.length : Int) + 7) =
      (mid.length : Int) + (pre.length + 7 : Nat) := by
    rw [pyFindFrom]
    have hnn : ¬((pre.length : Int) + 7 < 0) := by omega
    have htn : ((pre.length : Int) + 7).toNat = pre.length + 7 := by omega
    simp only [if_neg hnn, htn, hdrop2, hidx2]
  have hlen : (pre ++ fenceTag ++ mid ++ fenceBare ++ post).length =
      pre.length + 7 + mid.length + 3 + post.length := by
    simp [h7, h3]; omega
  have hslice : pySlice (pre ++ fenceTag ++ mid ++ fenceBare ++ post)
      ((pre.length : Int) + 7) ((mid.length : Int) + (pre.length + 7 : Nat)) =
      mid := by
    rw [pySlice]
    have hlo : sliceBound (pre ++ fenceTag ++ mid ++ fenceBare ++ post).length
        ((pre.length : Int) + 7) = pre.length + 7 := by
      rw [sliceBound, hlen]
      rw [if_neg (by omega)]
      omega
    have hhi : sliceBound (pre ++ fenceTag ++ mid ++ fenceBare ++ post).length
        ((mid.length : Int) + (pre.length + 7 : Nat)) =
        pre.length + 7 + mid.length := by
      rw [sliceBound, hlen]
      rw [if_neg (by omega)]
      omega
    rw [hlo, hhi]
    have hsplit : pre ++ fenceTag ++ mid ++ fenceBare ++ post =
        ((pre ++ fenceTag) ++ mid) ++ (fenceBare ++ post) := by
      simp [List.append_assoc]
    rw [hsplit, List.take_left' (by simp [h7]; omega),
      List.drop_left' (by simp [h7])]
  rw [extractJson, if_pos hcont, hfind]
  show pyStrip (pySlice _ ((pre.length : Int) + 7)
    (pyFindFrom _ fenceBare ((pre.length : Int) + 7))) = pyStrip mid
  rw [hfrom, hslice]

lemma extractJson_braces (content : List Char)
    (hfence : pyContains content fenceTag = false)
    (hb : pyContains content braceL = true)
    (hc : pyContains content braceR = true) :
    ∃ i j : Nat,
      content[i]? = some '{' ∧ (∀ k, k < i → content[k]? ≠ some '{') ∧
      content[j]? = some '}' ∧ (∀ k, j < k → content[k]? ≠ some '}') ∧
      pyFind content braceL = (i : Int) ∧
      pyRfind content braceR = (j : Int) ∧
      extractJson content = pySlice content (i : Int) ((j : Int) + 1) := by
  have hbl : braceL = ['{'] := rfl
  have hbrv : braceR.reverse = ['}'] := rfl
  obtain ⟨i, hi⟩ : ∃ i, findIdx content braceL = some i := by
    rw [pyContains, Option.isSome_iff_exists] at hb
    exact hb
  obtain ⟨hiocc, himin⟩ := findIdx_some_spec braceL content i hi
  have hifst : content[i]? = some '{' := by
    rw [hbl] at hiocc
    exact (headMatch_single_iff '{' content i).mp hiocc
  have himin' : ∀ k, k < i → content[k]? ≠ some '{' := by
    intro k hk hcontra
    have := himin k hk
    rw [hbl, (headMatch_single_iff '{' content k).mpr hcontra] at this
    exact Bool.noConfusion this
  obtain ⟨i0, hi0⟩ : ∃ i0, findIdx content braceR = some i0 := by
    rw [pyContains, Option.isSome_iff_exists] at hc
    exact hc
  have hbr : braceR = ['}'] := rfl
  obtain ⟨hi0occ, -⟩ := findIdx_some_spec braceR content i0 hi0
  have hi0elem : content[i0]? = some '}' := by
    rw [hbr] at hi0occ
    exact (headMatch_single_iff '}' content i0).mp hi0occ
  have hi0lt : i0 < content.length := by
    rcases List.getElem?_eq_some_iff.mp hi0elem with ⟨h, -⟩
    exact h
  obtain ⟨irev, hirev⟩ :
      ∃ irev, findIdx content.reverse braceR.reverse = some irev := by
    rw [Option.isSome_iff_exists.symm]
    by_contra hnone
    rw [Option.not_isSome_iff_eq_none] at hnone
    have hall := findIdx_none_spec braceR.reverse content.reverse hnone
    have hk := hall (content.length - 1 - i0)
    rw [hbrv,
      (headMatch_single_iff '}' content.reverse
        (content.length - 1 - i0)).mpr ?_] at hk
    · exact Bool.noConfusion hk
    · rw [List.getElem?_reverse (by omega)]
      rw [show content.length - 1 - (content.length - 1 - i0) = i0 by omega]
      exact hi0elem
  obtain ⟨hrocc, hrmin⟩ := findIdx_some_spec braceR.reverse
    content.reverse irev hirev
  have hrelem : content.reverse[irev]? = some '}' := by
    rw [hbrv] at hrocc
    exact (headMatch_single_iff '}' content.reverse irev).mp hrocc
  have hirevlt : irev < content.length := by
    rcases List.getElem?_eq_some_iff.mp hrelem with ⟨h, -⟩
    simpa using h
  have hjelem : content[content.length - 1 - irev]? = some '}' := by
    rw [← List.getElem?_reverse (by simpa using hirevlt)]
    exact hrelem
  have hjmax : ∀ k, content.length - 1 - irev < k →
      content[k]? ≠ some '}' := by
    intro k hk hcontra
    have hklt : k < content.length := by
      rcases List.getElem?_eq_some_iff.mp hcontra with ⟨h, -⟩
      exact h
    have hkrev : content.length - 1 - k < irev := by omega
    have := hrmin (content.length - 1 - k) hkrev
    rw [hbrv, (headMatch_single_iff '}' content.reverse
      (content.length - 1 - k)).mpr ?_] at this
    · exact Bool.noConfusion this
    · rw [List.getElem?_reverse (by omega)]
      rw [show content.length - 1 - (content.length - 1 - k) = k by omega]
      exact hcontra
  have hfindL : pyFind content braceL = (i : Int) := by
    rw [pyFind, hi]
  have hfindR : pyRfind content braceR =
      ((content.length - 1 - irev : Nat) : Int) := by
    rw [pyRfind, hirev]
    show ((content.length : Int) - (braceR.length : Int) - (irev : Int)) = _
    have hb1 : braceR.length = 1 := rfl
    rw [hb1]
    omega
  refine ⟨i, content.length - 1 - irev, hifst, himin', hjelem, hjmax,
    hfindL, hfindR, ?_⟩
  rw [extractJson, if_neg (by simp [hfence]),
    if_pos (by simp [hb, hc]), hfindL, hfindR]

lemma extractJson_whole (content : List Char)
    (hfence : pyContains content fenceTag = false)
    (hbr : (pyContains content braceL && pyContains content braceR) = false) :
    extractJson content = content := by
  rw [extractJson, if_neg (by simp [hfence]), if_neg (by simp [hbr])]

lemma callApi_first_success (maxRetries : Nat) (oracle : Nat → ApiOutcome)
    (itemId c : List Char) (v : Json) (hr : 1 ≤ maxRetries)
    (h0 : oracle 0 = .respond c)
    (hp : parseJson (extractJson c) = some v) :
    callApiWithRetry maxRetries oracle itemId = ⟨some v, [], 1⟩ := by
  match maxRetries, hr with
  | m + 1, _ =>
    rw [callApiWithRetry]
    simp [callApiFrom, h0, hp]

/-- C2 (amended): the JSON candidate substring is selected in order:
(1) for text containing a well-formed ```` ```json ```` fenced block
(no earlier opening marker, no earlier bare fence inside the block),
the stripped content between the fence markers; (2) otherwise, for
text containing both braces, the slice from the first `{` to the last
`}` inclusive; (3) otherwise the whole text; the chosen substring is
then parsed as JSON, a successful parse returning immediately.  On
the spec's examples: the fenced input gives `{"a":1}`, the noise
input gives `{"a":1}`, and the brace-free prose input fails to parse
(a brace-free text that is itself a complete JSON document, however,
parses — see the counterexample). -/
theorem C2_json_extraction :
    (∀ pre mid post : List Char,
      (∀ k, k < pre.length →
        headMatch fenceTag
          ((pre ++ fenceTag ++ mid ++ fenceBare ++ post).drop k) = false) →
      (∀ k, k < mid.length →
        headMatch fenceBare ((mid ++ fenceBare ++ post).drop k) = false) →
      extractJson (pre ++ fenceTag ++ mid ++ fenceBare ++ post) =
        pyStrip mid) ∧
    (∀ content : List Char,
      pyContains content fenceTag = false →
      pyContains content braceL = true →
      pyContains content braceR = true →
      ∃ i j : Nat,
        content[i]? = some '{' ∧
        (∀ k, k < i → content[k]? ≠ some '{') ∧
        content[j]? = some '}' ∧
        (∀ k, j < k → content[k]? ≠ some '}') ∧
        extractJson content = pySlice content (i : Int) ((j : Int) + 1)) ∧
    (∀ content : List Char,
      pyContains content fenceTag = false →
      (pyContains content braceL && pyContains content braceR) = false →
      extractJson content = content) ∧
    (∀ (maxRetries : Nat) (oracle : Nat → ApiOutcome)
        (itemId c : List Char) (v : Json),
      1 ≤ maxRetries → oracle 0 = .respond c →
      parseJson (extractJson c) = some v →
      callApiWithRetry maxRetries oracle itemId = ⟨some v, [], 1⟩) ∧
    extractJson ("prefix ```json\n\x7b\"a\":1\x7d\n``` suffix".toList) =
      "\x7b\"a\":1\x7d".toList ∧
    parseJson ("\x7b\"a\":1\x7d".toList) =
      some (Json.obj [("a".toList, Json.num 1)]) ∧
    extractJson ("noise \x7b\"a\":1\x7d noise".toList) = "\x7b\"a\":1\x7d".toList ∧
    parseJson (extractJson ("no json here".toList)) = none := by
  refine ⟨extractJson_fenced, ?_, extractJson_whole, callApi_first_success,
    rfl, rfl, rfl, rfl⟩
  intro content hf hb hc
  obtain ⟨i, j, h1, h2, h3, h4, -, -, h7⟩ := extractJson_braces content hf hb hc
  exact ⟨i, j, h1, h2, h3, h4, h7⟩

theorem C2_json_extraction_witness :
    extractJson ("ab".toList ++ fenceTag ++ " \x7b\"a\":1\x7d ".toList ++
        fenceBare ++ "z".toList) = pyStrip (" \x7b\"a\":1\x7d ".toList) ∧
    (∃ i j : Nat,
      ("noise \x7b\"a\":1\x7d noise".toList)[i]? = some '{' ∧
      (∀ k, k < i → ("noise \x7b\"a\":1\x7d noise".toList)[k]? ≠ some '{') ∧
      ("noise \x7b\"a\":1\x7d noise".toList)[j]? = some '}' ∧
      (∀ k, j < k → ("noise \x7b\"a\":1\x7d noise".toList)[k]? ≠ some '}') ∧
      extractJson ("noise \x7b\"a\":1\x7d noise".toList) =
        pySlice ("noise \x7b\"a\":1\x7d noise".toList) (i : Int) ((j : Int) + 1)) :=
  ⟨C2_json_extraction.1 ("ab".toList) (" \x7b\"a\":1\x7d ".toList) ("z".toList)
      (by decide) (by decide),
   C2_json_extraction.2.1 ("noise \x7b\"a\":1\x7d noise".toList)
      (by decide) (by decide) (by decide)⟩

/-- C2 counterexample: the brace-free, fence-free text `42` is routed
to the whole-text case and parses successfully as the JSON document
`42`, so "for text with no braces parsing fails" does not hold as
stated; the retry wrapper then returns the parsed value at once. -/
theorem C2_no_brace_valid_json_parses :
    pyContains ("42".toList) fenceTag = false ∧
    pyContains ("42".toList) braceL = false ∧
    pyContains ("42".toList) braceR = false ∧
    extractJson ("42".toList) = "42".toList ∧
    parseJson ("42".toList) = some (Json.num 42) ∧
    callApiWithRetry 1 (fun _ => .respond ("42".toList)) ("i".toList) =
      ⟨some (Json.num 42), [], 1⟩ :=
  ⟨rfl, rfl, rfl, rfl, rfl, rfl⟩

end MDC
